import Mathlib

/-!
# CPP_Utilities: byteswap, Fletcher checksum and hex-dump routines

A shallow embedding of `src/CPP_Utilities/utilties.h` (namespace `Essentials::Utilities`).

Machine integers are natural numbers; every place where the C++ code converts to a
fixed-width unsigned type is an explicit `% 2 ^ w`.  A byte buffer is a `List Byte`
with `Byte = Fin 256`; reading `data[i]` outside the buffer is a distinguished result
of the loop, not a value.

The standard output is the string of characters written to it.  The hex-dump routine
formats through `std::cout` and sets only the base, the fill character and the width
itself, so the rest of the stream's formatting state (`uppercase`, `showbase`, the
alignment, the digit grouping of the locale) is an explicit argument of its embedding.

Integer model (a platform whose `int` has 32 bits, as the fixed-width types suggest):
* `uint8_t` and `uint16_t` operands are promoted to `int` before arithmetic, so
  `value << 8` on a `uint16_t` and `sum1 + data[i]` on `uint16_t` sums do not wrap; the
  conversion back to `uint16_t` on assignment or return is `% 2 ^ 16`;
* `uint32_t` and `uint64_t` arithmetic wraps modulo `2 ^ 32` and `2 ^ 64`.
-/

namespace Essentials.Utilities

/-! ## Byteswap routines (utilties.h lines 36-65) -/

/-- Source `byteswap16`: `return (value << 8) | (value >> 8);`, the `int` result converted
to `uint16_t`. -/
def byteswap16 (value : Nat) : Nat :=
  ((value <<< 8) ||| (value >>> 8)) % 2 ^ 16

/-- Source `byteswap32`: four masked bytes, each shifted to its mirrored place; the left
shifts are `uint32_t` shifts and wrap modulo `2 ^ 32`. -/
def byteswap32 (value : Nat) : Nat :=
  ((value &&& 0xFF000000) >>> 24) |||
  ((value &&& 0x00FF0000) >>> 8) |||
  (((value &&& 0x0000FF00) <<< 8) % 2 ^ 32) |||
  (((value &&& 0x000000FF) <<< 24) % 2 ^ 32)

/-- Source `byteswap64`: eight masked bytes, each shifted to its mirrored place; the left
shifts are `uint64_t` shifts and wrap modulo `2 ^ 64`. -/
def byteswap64 (value : Nat) : Nat :=
  ((value &&& 0xFF00000000000000) >>> 56) |||
  ((value &&& 0x00FF000000000000) >>> 40) |||
  ((value &&& 0x0000FF0000000000) >>> 24) |||
  ((value &&& 0x000000FF00000000) >>> 8) |||
  (((value &&& 0x00000000FF000000) <<< 8) % 2 ^ 64) |||
  (((value &&& 0x0000000000FF0000) <<< 24) % 2 ^ 64) |||
  (((value &&& 0x000000000000FF00) <<< 40) % 2 ^ 64) |||
  (((value &&& 0x00000000000000FF) <<< 56) % 2 ^ 64)

/-- Byte `k` of `v`, counted from the least significant end: `(v >> 8k) & 0xFF`. -/
def byteAt (v k : Nat) : Nat := (v >>> (8 * k)) &&& 0xFF

/-! ## Fletcher checksum routines (utilties.h lines 73-128) -/

/-- A `uint8_t`. -/
abbrev Byte := Fin 256

/-- How a run of the `for` loop of a Fletcher routine ends.  `reads` lists the indices
`i` at which `data[i]` was read, oldest first; its length is the number of completed
iterations. -/
inductive LoopResult where
  /-- The loop test `i < bound` failed: the loop is left with these sums. -/
  | done (sum1 sum2 : Nat) (reads : List Nat)
  /-- The loop body read `data[i]` with `i` outside the buffer. -/
  | outOfRange (i : Nat) (reads : List Nat)
  /-- The iteration budget of the embedding was used up. -/
  | outOfFuel
  deriving DecidableEq, Repr

/-- The loop shared (textually) by the three Fletcher routines:
`for (uint32_t i = startOffset; i < bound; i++) { body }`, where `body` is the pair of
assignments to `sum1` and `sum2`, `bound` is the value of `length - backOffset`, and the
increment of the `uint32_t` counter wraps modulo `2 ^ 32`.  The first argument is the
iteration budget. -/
def fletcherLoop (body : Nat → Nat → Nat → Nat × Nat) (data : List Byte) (bound : Nat) :
    Nat → Nat → Nat → Nat → List Nat → LoopResult
  | 0, _, _, _, _ => .outOfFuel
  | fuel + 1, i, sum1, sum2, reads =>
    if i < bound then
      match data[i]? with
      | none => .outOfRange i reads
      | some b =>
        fletcherLoop body data bound fuel ((i + 1) % 2 ^ 32)
          (body sum1 sum2 b.val).1 (body sum1 sum2 b.val).2 (reads ++ [i])
    else .done sum1 sum2 reads

/-- The loop bound `length - backOffset`, a `uint32_t` subtraction: it wraps modulo
`2 ^ 32` when `backOffset > length`. -/
def loopBound (length backOffset : Nat) : Nat := (length + 2 ^ 32 - backOffset) % 2 ^ 32

/-- Iteration budget of the runs: the `uint32_t` counter takes at most `2 ^ 32` values. -/
def loopFuel : Nat := 2 ^ 32

/-- Loop body of `fletcher16`: `sum1 = (sum1 + data[i]) % mod; sum2 = (sum2 + sum1) % mod;`
with `mod = 255`, computed in `int` and stored into `uint16_t` sums. -/
def fletcher16Body (sum1 sum2 b : Nat) : Nat × Nat :=
  let sum1 := (sum1 + b) % 255 % 2 ^ 16
  let sum2 := (sum2 + sum1) % 255 % 2 ^ 16
  (sum1, sum2)

/-- Loop body of `fletcher16_mod256`: as `fletcher16Body` with `mod = 256`. -/
def fletcher16_mod256Body (sum1 sum2 b : Nat) : Nat × Nat :=
  let sum1 := (sum1 + b) % 256 % 2 ^ 16
  let sum2 := (sum2 + sum1) % 256 % 2 ^ 16
  (sum1, sum2)

/-- Loop body of `fletcher32`: `mod = 65535`, the additions are `uint32_t` additions. -/
def fletcher32Body (sum1 sum2 b : Nat) : Nat × Nat :=
  let sum1 := (sum1 + b) % 2 ^ 32 % 65535
  let sum2 := (sum2 + sum1) % 2 ^ 32 % 65535
  (sum1, sum2)

/-- The loop of `fletcher16`, started at `i = startOffset` with `sum1 = sum2 = 0`. -/
def fletcher16Run (data : List Byte) (length startOffset backOffset : Nat) : LoopResult :=
  fletcherLoop fletcher16Body data (loopBound length backOffset) loopFuel startOffset 0 0 []

/-- The loop of `fletcher16_mod256`. -/
def fletcher16_mod256Run (data : List Byte) (length startOffset backOffset : Nat) :
    LoopResult :=
  fletcherLoop fletcher16_mod256Body data (loopBound length backOffset) loopFuel
    startOffset 0 0 []

/-- The loop of `fletcher32`. -/
def fletcher32Run (data : List Byte) (length startOffset backOffset : Nat) : LoopResult :=
  fletcherLoop fletcher32Body data (loopBound length backOffset) loopFuel startOffset 0 0 []

/-- Source `fletcher16`: after the loop, `return (sum2 << 8) | sum1;` converted to
`uint16_t`.  `none` when the loop does not complete. -/
def fletcher16 (data : List Byte) (length startOffset backOffset : Nat) : Option Nat :=
  match fletcher16Run data length startOffset backOffset with
  | .done sum1 sum2 _ => some (((sum2 <<< 8) ||| sum1) % 2 ^ 16)
  | _ => none

/-- Source `fletcher16_mod256`: after the loop, `return (sum2 << 8) | sum1;` converted to
`uint16_t`. -/
def fletcher16_mod256 (data : List Byte) (length startOffset backOffset : Nat) :
    Option Nat :=
  match fletcher16_mod256Run data length startOffset backOffset with
  | .done sum1 sum2 _ => some (((sum2 <<< 8) ||| sum1) % 2 ^ 16)
  | _ => none

/-- Source `fletcher32`: after the loop, `return (sum2 << 16) | sum1;` in `uint32_t`. -/
def fletcher32 (data : List Byte) (length startOffset backOffset : Nat) : Option Nat :=
  match fletcher32Run data length startOffset backOffset with
  | .done sum1 sum2 _ => some (((sum2 <<< 16) % 2 ^ 32) ||| sum1)
  | _ => none

/-! ## The specification's reading of the checksum -/

/-- Specification step: `sum1 := (sum1 + byte) mod M`, then `sum2 := (sum2 + sum1) mod M`,
in unbounded arithmetic. -/
def fletcherStep (M : Nat) (acc : Nat × Nat) (b : Nat) : Nat × Nat :=
  ((acc.1 + b) % M, (acc.2 + (acc.1 + b) % M) % M)

/-- Specification sums: the step folded over the bytes in order, from `(0, 0)`. -/
def fletcherSums (M : Nat) (bytes : List Byte) : Nat × Nat :=
  bytes.foldl (fun acc b => fletcherStep M acc b.val) (0, 0)

/-- The bytes `data[startOffset .. length - backOffset)`, in ascending index order. -/
def selected (data : List Byte) (length startOffset backOffset : Nat) : List Byte :=
  (data.take (length - backOffset)).drop startOffset

/-- The unreduced cumulative sums of a byte sequence: the sum of the bytes, and the sum
of all the partial sums `b_0`, `b_0 + b_1`, ... -/
def unreducedSums (bytes : List Byte) : Nat × Nat :=
  bytes.foldl (fun acc b => (acc.1 + b.val, acc.2 + (acc.1 + b.val))) (0, 0)

/-- A 258-byte buffer, one byte 254 followed by 257 zero bytes: the sum of its bytes is
254 and the sum of its partial sums is 254 * 258 = 65532 = 65280 + 252. -/
def collidingBuffer : List Byte := 254 :: List.replicate 257 0

/-- The sum `b_0 + ... + b_(n-1)` of a byte sequence. -/
def byteSum (bytes : List Byte) : Nat := (bytes.map Fin.val).sum

/-- The weighted sum `n*b_0 + (n-1)*b_1 + ... + 1*b_(n-1)` of a byte sequence of `n`
bytes: the first byte counts `n` times, and the remaining `n - 1` bytes are weighted in
the same way. -/
def weightedSum : List Byte → Nat
  | [] => 0
  | b :: bs => (bs.length + 1) * b.val + weightedSum bs

/-! ## Hex-dump routine (utilties.h lines 134-148) -/

/-- Masking with a single shifted byte keeps that byte in place. -/
theorem and_byte_mask (x k : Nat) :
    x &&& (0xFF <<< k) = ((x >>> k) % 256) <<< k := by
  apply Nat.eq_of_testBit_eq
  intro j
  have h : (0xFF : Nat) = 2 ^ 8 - 1 := by norm_num
  have h2 : (256 : Nat) = 2 ^ 8 := by norm_num
  rw [h, h2]
  simp only [Nat.testBit_and, Nat.testBit_shiftLeft, Nat.testBit_two_pow_sub_one,
    Nat.testBit_mod_two_pow, Nat.testBit_shiftRight]
  by_cases hj : k ≤ j
  · have : k + (j - k) = j := by omega
    simp [hj, this, Bool.and_comm]
  · simp [hj]

/-- The byte mask at bit `k`, in division form. -/
theorem and_mask (x k m : Nat) (hm : m = 0xFF * 2 ^ k) :
    x &&& m = (x / 2 ^ k % 256) * 2 ^ k := by
  rw [hm, ← Nat.shiftLeft_eq, and_byte_mask, Nat.shiftLeft_eq, Nat.shiftRight_eq_div_pow]

/-- Bitwise or with a value below the shifted part is addition. -/
theorem or_eq_add_of_lt (a b i : Nat) (hb : b < 2 ^ i) :
    (a * 2 ^ i) ||| b = a * 2 ^ i + b := by
  rw [Nat.mul_comm, ← Nat.mul_add_lt_is_or hb]

/-- The same with the small operand on the left. -/
theorem or_eq_add_of_lt_left (a b i : Nat) (hb : b < 2 ^ i) :
    b ||| (a * 2 ^ i) = a * 2 ^ i + b := by
  rw [Nat.or_comm, or_eq_add_of_lt _ _ _ hb]

/-- Division form of `byteAt`. -/
theorem byteAt_eq (v k : Nat) : byteAt v k = v / 2 ^ (8 * k) % 256 := by
  unfold byteAt
  rw [Nat.shiftRight_eq_div_pow]
  exact Nat.and_pow_two_sub_one_eq_mod _ 8

/-- Closed form of `byteswap16` on 16-bit values. -/
theorem byteswap16_eq (x : Nat) (hx : x < 2 ^ 16) :
    byteswap16 x = (x % 256) * 2 ^ 8 + x / 2 ^ 8 % 256 := by
  unfold byteswap16
  simp only [Nat.shiftLeft_eq, Nat.shiftRight_eq_div_pow]
  rw [or_eq_add_of_lt _ _ 8 (by omega)]
  have hl : x % 256 < 256 := Nat.mod_lt _ (by norm_num)
  have hh : x / 2 ^ 8 < 256 := by omega
  have hx' : x = x / 2 ^ 8 * 256 + x % 256 := by omega
  have e : x / 2 ^ 8 % 256 = x / 2 ^ 8 := by omega
  rw [e]
  generalize x / 2 ^ 8 = h at *
  generalize x % 256 = l at *
  subst hx'
  omega

/-- Closed form of `byteswap32`. -/
theorem byteswap32_eq (x : Nat) :
    byteswap32 x = (x % 256) * 2 ^ 24 + (x / 2 ^ 8 % 256) * 2 ^ 16 + (x / 2 ^ 16 % 256) * 2 ^ 8
      + x / 2 ^ 24 % 256 := by
  unfold byteswap32
  rw [and_mask x 24 0xFF000000 (by norm_num), and_mask x 16 0x00FF0000 (by norm_num),
    and_mask x 8 0x0000FF00 (by norm_num), and_mask x 0 0x000000FF (by norm_num)]
  simp only [Nat.shiftLeft_eq, Nat.shiftRight_eq_div_pow]
  have e3 : x / 2 ^ 24 % 256 * 2 ^ 24 / 2 ^ 24 = x / 2 ^ 24 % 256 := by omega
  have e2 : x / 2 ^ 16 % 256 * 2 ^ 16 / 2 ^ 8 = (x / 2 ^ 16 % 256) * 2 ^ 8 := by omega
  have e1 : x / 2 ^ 8 % 256 * 2 ^ 8 * 2 ^ 8 % 2 ^ 32 = (x / 2 ^ 8 % 256) * 2 ^ 16 := by omega
  have e0 : x / 2 ^ 0 % 256 * 2 ^ 0 * 2 ^ 24 % 2 ^ 32 = (x % 256) * 2 ^ 24 := by omega
  rw [e3, e2, e1, e0]
  rw [or_eq_add_of_lt_left _ _ 8 (by omega), or_eq_add_of_lt_left _ _ 16 (by omega),
    or_eq_add_of_lt_left _ _ 24 (by omega)]
  omega

/-- Closed form of `byteswap64`. -/
theorem byteswap64_eq (x : Nat) :
    byteswap64 x = (x % 256) * 2 ^ 56 + (x / 2 ^ 8 % 256) * 2 ^ 48 + (x / 2 ^ 16 % 256) * 2 ^ 40
      + (x / 2 ^ 24 % 256) * 2 ^ 32 + (x / 2 ^ 32 % 256) * 2 ^ 24 + (x / 2 ^ 40 % 256) * 2 ^ 16
      + (x / 2 ^ 48 % 256) * 2 ^ 8 + x / 2 ^ 56 % 256 := by
  unfold byteswap64
  rw [and_mask x 56 0xFF00000000000000 (by norm_num),
    and_mask x 48 0x00FF000000000000 (by norm_num),
    and_mask x 40 0x0000FF0000000000 (by norm_num),
    and_mask x 32 0x000000FF00000000 (by norm_num),
    and_mask x 24 0x00000000FF000000 (by norm_num),
    and_mask x 16 0x0000000000FF0000 (by norm_num),
    and_mask x 8 0x000000000000FF00 (by norm_num),
    and_mask x 0 0x00000000000000FF (by norm_num)]
  simp only [Nat.shiftLeft_eq, Nat.shiftRight_eq_div_pow]
  have h7 : x / 2 ^ 56 % 256 < 256 := Nat.mod_lt _ (by norm_num)
  have h6 : x / 2 ^ 48 % 256 < 256 := Nat.mod_lt _ (by norm_num)
  have h5 : x / 2 ^ 40 % 256 < 256 := Nat.mod_lt _ (by norm_num)
  have h4 : x / 2 ^ 32 % 256 < 256 := Nat.mod_lt _ (by norm_num)
  have h3 : x / 2 ^ 24 % 256 < 256 := Nat.mod_lt _ (by norm_num)
  have h2 : x / 2 ^ 16 % 256 < 256 := Nat.mod_lt _ (by norm_num)
  have h1 : x / 2 ^ 8 % 256 < 256 := Nat.mod_lt _ (by norm_num)
  have h0 : x / 2 ^ 0 % 256 < 256 := Nat.mod_lt _ (by norm_num)
  have e : x / 2 ^ 0 = x := by simp
  rw [e] at h0 ⊢
  generalize x / 2 ^ 56 % 256 = b7 at *
  generalize x / 2 ^ 48 % 256 = b6 at *
  generalize x / 2 ^ 40 % 256 = b5 at *
  generalize x / 2 ^ 32 % 256 = b4 at *
  generalize x / 2 ^ 24 % 256 = b3 at *
  generalize x / 2 ^ 16 % 256 = b2 at *
  generalize x / 2 ^ 8 % 256 = b1 at *
  generalize x % 256 = b0 at *
  have e7 : b7 * 2 ^ 56 / 2 ^ 56 = b7 := by omega
  have e6 : b6 * 2 ^ 48 / 2 ^ 40 = b6 * 2 ^ 8 := by omega
  have e5 : b5 * 2 ^ 40 / 2 ^ 24 = b5 * 2 ^ 16 := by omega
  have e4 : b4 * 2 ^ 32 / 2 ^ 8 = b4 * 2 ^ 24 := by omega
  have e3 : b3 * 2 ^ 24 * 2 ^ 8 % 2 ^ 64 = b3 * 2 ^ 32 := by omega
  have e2 : b2 * 2 ^ 16 * 2 ^ 24 % 2 ^ 64 = b2 * 2 ^ 40 := by omega
  have e1 : b1 * 2 ^ 8 * 2 ^ 40 % 2 ^ 64 = b1 * 2 ^ 48 := by omega
  have e0 : b0 * 2 ^ 0 * 2 ^ 56 % 2 ^ 64 = b0 * 2 ^ 56 := by omega
  rw [e7, e6, e5, e4, e3, e2, e1, e0]
  rw [or_eq_add_of_lt_left _ _ 8 (by omega), or_eq_add_of_lt_left _ _ 16 (by omega),
    or_eq_add_of_lt_left _ _ 24 (by omega), or_eq_add_of_lt_left _ _ 32 (by omega),
    or_eq_add_of_lt_left _ _ 40 (by omega), or_eq_add_of_lt_left _ _ 48 (by omega),
    or_eq_add_of_lt_left _ _ 56 (by omega)]
  omega

/-- Reading the bytes of a value assembled from two bytes. -/
theorem swapped16_bytes (b0 b1 : Nat) (h0 : b0 < 256) (h1 : b1 < 256) :
    (b0 * 2 ^ 8 + b1) / 2 ^ (8 * 0) % 256 = b1 ∧
    (b0 * 2 ^ 8 + b1) / 2 ^ (8 * 1) % 256 = b0 := by
  norm_num
  omega

/-- Reading the bytes of a value assembled from four bytes. -/
theorem swapped32_bytes (b0 b1 b2 b3 : Nat) (h0 : b0 < 256) (h1 : b1 < 256) (h2 : b2 < 256)
    (h3 : b3 < 256) :
    (b0 * 2 ^ 24 + b1 * 2 ^ 16 + b2 * 2 ^ 8 + b3) / 2 ^ (8 * 0) % 256 = b3 ∧
    (b0 * 2 ^ 24 + b1 * 2 ^ 16 + b2 * 2 ^ 8 + b3) / 2 ^ (8 * 1) % 256 = b2 ∧
    (b0 * 2 ^ 24 + b1 * 2 ^ 16 + b2 * 2 ^ 8 + b3) / 2 ^ (8 * 2) % 256 = b1 ∧
    (b0 * 2 ^ 24 + b1 * 2 ^ 16 + b2 * 2 ^ 8 + b3) / 2 ^ (8 * 3) % 256 = b0 := by
  norm_num
  omega

/-- Reading the bytes of a value assembled from eight bytes. -/
theorem swapped64_bytes (b0 b1 b2 b3 b4 b5 b6 b7 : Nat) (h0 : b0 < 256) (h1 : b1 < 256)
    (h2 : b2 < 256) (h3 : b3 < 256) (h4 : b4 < 256) (h5 : b5 < 256) (h6 : b6 < 256)
    (h7 : b7 < 256) (y : Nat)
    (hy : y = b0 * 2 ^ 56 + b1 * 2 ^ 48 + b2 * 2 ^ 40 + b3 * 2 ^ 32 + b4 * 2 ^ 24
      + b5 * 2 ^ 16 + b6 * 2 ^ 8 + b7) :
    y / 2 ^ (8 * 0) % 256 = b7 ∧ y / 2 ^ (8 * 1) % 256 = b6 ∧
    y / 2 ^ (8 * 2) % 256 = b5 ∧ y / 2 ^ (8 * 3) % 256 = b4 ∧
    y / 2 ^ (8 * 4) % 256 = b3 ∧ y / 2 ^ (8 * 5) % 256 = b2 ∧
    y / 2 ^ (8 * 6) % 256 = b1 ∧ y / 2 ^ (8 * 7) % 256 = b0 := by
  norm_num
  omega

/-- The bytes of `byteswap16 x` are those of `x` in reverse order. -/
theorem byteswap16_bytes (x : Nat) (hx : x < 2 ^ 16) :
    byteAt (byteswap16 x) 0 = byteAt x 1 ∧ byteAt (byteswap16 x) 1 = byteAt x 0 := by
  simp only [byteAt_eq, byteswap16_eq x hx]
  have h := swapped16_bytes (x % 256) (x / 2 ^ 8 % 256)
    (Nat.mod_lt _ (by norm_num)) (Nat.mod_lt _ (by norm_num))
  obtain ⟨h0, h1⟩ := h
  rw [h0, h1]
  norm_num

/-- The bytes of `byteswap32 x` are those of `x` in reverse order. -/
theorem byteswap32_bytes (x : Nat) :
    byteAt (byteswap32 x) 0 = byteAt x 3 ∧ byteAt (byteswap32 x) 1 = byteAt x 2 ∧
    byteAt (byteswap32 x) 2 = byteAt x 1 ∧ byteAt (byteswap32 x) 3 = byteAt x 0 := by
  simp only [byteAt_eq, byteswap32_eq]
  have h := swapped32_bytes (x % 256) (x / 2 ^ 8 % 256) (x / 2 ^ 16 % 256) (x / 2 ^ 24 % 256)
    (Nat.mod_lt _ (by norm_num)) (Nat.mod_lt _ (by norm_num)) (Nat.mod_lt _ (by norm_num))
    (Nat.mod_lt _ (by norm_num))
  obtain ⟨h0, h1, h2, h3⟩ := h
  rw [h0, h1, h2, h3]
  norm_num

/-- The bytes of `byteswap64 x` are those of `x` in reverse order. -/
theorem byteswap64_bytes (x : Nat) :
    byteAt (byteswap64 x) 0 = byteAt x 7 ∧ byteAt (byteswap64 x) 1 = byteAt x 6 ∧
    byteAt (byteswap64 x) 2 = byteAt x 5 ∧ byteAt (byteswap64 x) 3 = byteAt x 4 ∧
    byteAt (byteswap64 x) 4 = byteAt x 3 ∧ byteAt (byteswap64 x) 5 = byteAt x 2 ∧
    byteAt (byteswap64 x) 6 = byteAt x 1 ∧ byteAt (byteswap64 x) 7 = byteAt x 0 := by
  simp only [byteAt_eq]
  have h := swapped64_bytes (x % 256) (x / 2 ^ 8 % 256) (x / 2 ^ 16 % 256) (x / 2 ^ 24 % 256)
    (x / 2 ^ 32 % 256) (x / 2 ^ 40 % 256) (x / 2 ^ 48 % 256) (x / 2 ^ 56 % 256)
    (Nat.mod_lt _ (by norm_num)) (Nat.mod_lt _ (by norm_num)) (Nat.mod_lt _ (by norm_num))
    (Nat.mod_lt _ (by norm_num)) (Nat.mod_lt _ (by norm_num)) (Nat.mod_lt _ (by norm_num))
    (Nat.mod_lt _ (by norm_num)) (Nat.mod_lt _ (by norm_num)) (byteswap64 x)
    (byteswap64_eq x)
  obtain ⟨h0, h1, h2, h3, h4, h5, h6, h7⟩ := h
  rw [h0, h1, h2, h3, h4, h5, h6, h7]
  norm_num

/-- A 16-bit value is the sum of its two bytes. -/
theorem bytes_sum16 (x : Nat) (hx : x < 2 ^ 16) :
    x = byteAt x 1 * 2 ^ 8 + byteAt x 0 := by
  simp only [byteAt_eq]
  norm_num
  omega

/-- A 32-bit value is the sum of its four bytes. -/
theorem bytes_sum32 (x : Nat) (hx : x < 2 ^ 32) :
    x = byteAt x 3 * 2 ^ 24 + byteAt x 2 * 2 ^ 16 + byteAt x 1 * 2 ^ 8 + byteAt x 0 := by
  simp only [byteAt_eq]
  norm_num
  omega

/-- A 64-bit value is the sum of its eight bytes. -/
theorem bytes_sum64 (x : Nat) (hx : x < 2 ^ 64) :
    x = byteAt x 7 * 2 ^ 56 + byteAt x 6 * 2 ^ 48 + byteAt x 5 * 2 ^ 40 + byteAt x 4 * 2 ^ 32
      + byteAt x 3 * 2 ^ 24 + byteAt x 2 * 2 ^ 16 + byteAt x 1 * 2 ^ 8 + byteAt x 0 := by
  simp only [byteAt_eq]
  norm_num
  omega

/-- Every result of `byteswap16` is a 16-bit value. -/
theorem byteswap16_lt (x : Nat) : byteswap16 x < 2 ^ 16 := by
  unfold byteswap16
  exact Nat.mod_lt _ (by norm_num)

/-- Every result of `byteswap32` is a 32-bit value. -/
theorem byteswap32_lt (x : Nat) : byteswap32 x < 2 ^ 32 := by
  rw [byteswap32_eq]
  omega

/-- Every result of `byteswap64` is a 64-bit value. -/
theorem byteswap64_lt (x : Nat) : byteswap64 x < 2 ^ 64 := by
  rw [byteswap64_eq]
  omega

/-- Swapping twice restores a 16-bit value. -/
theorem byteswap16_twice (x : Nat) (hx : x < 2 ^ 16) : byteswap16 (byteswap16 x) = x := by
  have h := bytes_sum16 (byteswap16 (byteswap16 x)) (byteswap16_lt _)
  obtain ⟨a0, a1⟩ := byteswap16_bytes (byteswap16 x) (byteswap16_lt _)
  obtain ⟨c0, c1⟩ := byteswap16_bytes x hx
  rw [a0, a1, c0, c1] at h
  rw [h]
  exact (bytes_sum16 x hx).symm

/-- Swapping twice restores a 32-bit value. -/
theorem byteswap32_twice (x : Nat) (hx : x < 2 ^ 32) : byteswap32 (byteswap32 x) = x := by
  have h := bytes_sum32 (byteswap32 (byteswap32 x)) (byteswap32_lt _)
  obtain ⟨a0, a1, a2, a3⟩ := byteswap32_bytes (byteswap32 x)
  obtain ⟨c0, c1, c2, c3⟩ := byteswap32_bytes x
  rw [a0, a1, a2, a3, c0, c1, c2, c3] at h
  rw [h]
  exact (bytes_sum32 x hx).symm

/-- Swapping twice restores a 64-bit value. -/
theorem byteswap64_twice (x : Nat) (hx : x < 2 ^ 64) : byteswap64 (byteswap64 x) = x := by
  have h := bytes_sum64 (byteswap64 (byteswap64 x)) (byteswap64_lt _)
  obtain ⟨a0, a1, a2, a3, a4, a5, a6, a7⟩ := byteswap64_bytes (byteswap64 x)
  obtain ⟨c0, c1, c2, c3, c4, c5, c6, c7⟩ := byteswap64_bytes x
  rw [a0, a1, a2, a3, a4, a5, a6, a7, c0, c1, c2, c3, c4, c5, c6, c7] at h
  rw [h]
  exact (bytes_sum64 x hx).symm

/-! ## Byteswap: the claims -/

/-- Claim C2: for each width W of 16, 32 and 64 bits, every W-bit value `x` and every byte
index `i < W/8`, byte `i` of the byteswapped value is byte `W/8 - 1 - i` of `x`; and the
three worked examples of the specification hold. -/
theorem byteswap_reverses_bytes (x i : Nat) :
    (x < 2 ^ 16 → i < 16 / 8 → byteAt (byteswap16 x) i = byteAt x (16 / 8 - 1 - i)) ∧
    (x < 2 ^ 32 → i < 32 / 8 → byteAt (byteswap32 x) i = byteAt x (32 / 8 - 1 - i)) ∧
    (x < 2 ^ 64 → i < 64 / 8 → byteAt (byteswap64 x) i = byteAt x (64 / 8 - 1 - i)) ∧
    byteswap16 0x1234 = 0x3412 ∧
    byteswap32 0x12345678 = 0x78563412 ∧
    byteswap64 0x0102030405060708 = 0x0807060504030201 := by
  refine ⟨?_, ?_, ?_, by decide, by decide, by decide⟩
  · intro hx hi
    obtain ⟨h0, h1⟩ := byteswap16_bytes x hx
    have hi2 : i < 2 := hi
    interval_cases i
    · exact h0
    · exact h1
  · intro _ hi
    obtain ⟨h0, h1, h2, h3⟩ := byteswap32_bytes x
    have hi4 : i < 4 := hi
    interval_cases i
    · exact h0
    · exact h1
    · exact h2
    · exact h3
  · intro _ hi
    obtain ⟨h0, h1, h2, h3, h4, h5, h6, h7⟩ := byteswap64_bytes x
    have hi8 : i < 8 := hi
    interval_cases i
    · exact h0
    · exact h1
    · exact h2
    · exact h3
    · exact h4
    · exact h5
    · exact h6
    · exact h7

/-- Witness of C2 at the 32-bit value 0x12345678 and byte index 1. -/
theorem byteswap_reverses_bytes_witness :
    (0x12345678 : Nat) < 2 ^ 32 ∧ (1 : Nat) < 32 / 8 ∧
    byteAt (byteswap32 0x12345678) 1 = byteAt 0x12345678 (32 / 8 - 1 - 1) :=
  ⟨by decide, by decide, (byteswap_reverses_bytes 0x12345678 1).2.1 (by decide) (by decide)⟩

/-- Claim C3: for each width W of 16, 32 and 64 bits and every W-bit value `x`, applying
the W-bit byteswap twice returns `x`. -/
theorem byteswap_involutive (x : Nat) :
    (x < 2 ^ 16 → byteswap16 (byteswap16 x) = x) ∧
    (x < 2 ^ 32 → byteswap32 (byteswap32 x) = x) ∧
    (x < 2 ^ 64 → byteswap64 (byteswap64 x) = x) :=
  ⟨byteswap16_twice x, byteswap32_twice x, byteswap64_twice x⟩

/-- Witness of C3 at the 64-bit value 0x0102030405060708. -/
theorem byteswap_involutive_witness :
    (0x0102030405060708 : Nat) < 2 ^ 64 ∧
    byteswap64 (byteswap64 0x0102030405060708) = 0x0102030405060708 :=
  ⟨by decide, (byteswap_involutive 0x0102030405060708).2.2 (by decide)⟩

/-! ## Fletcher: the loop computes the specification sums -/

/-- The specification step leaves both sums below a positive modulus. -/
theorem fletcherStep_lt (M : Nat) (hM : 0 < M) (acc : Nat × Nat) (b : Nat) :
    (fletcherStep M acc b).1 < M ∧ (fletcherStep M acc b).2 < M :=
  ⟨Nat.mod_lt _ hM, Nat.mod_lt _ hM⟩

/-- The body of `fletcher16` is the specification step for 255: storing into the
`uint16_t` sums truncates nothing. -/
theorem fletcher16Body_eq (s1 s2 b : Nat) :
    fletcher16Body s1 s2 b = fletcherStep 255 (s1, s2) b := by
  simp only [fletcher16Body, fletcherStep]
  have h1 : (s1 + b) % 255 < 255 := Nat.mod_lt _ (by norm_num)
  have h2 : (s2 + (s1 + b) % 255) % 255 < 255 := Nat.mod_lt _ (by norm_num)
  have e1 : (s1 + b) % 255 % 2 ^ 16 = (s1 + b) % 255 := Nat.mod_eq_of_lt (by omega)
  rw [e1]
  have e2 : (s2 + (s1 + b) % 255) % 255 % 2 ^ 16 = (s2 + (s1 + b) % 255) % 255 :=
    Nat.mod_eq_of_lt (by omega)
  rw [e2]

/-- The body of `fletcher16_mod256` is the specification step for 256. -/
theorem fletcher16_mod256Body_eq (s1 s2 b : Nat) :
    fletcher16_mod256Body s1 s2 b = fletcherStep 256 (s1, s2) b := by
  simp only [fletcher16_mod256Body, fletcherStep]
  have h1 : (s1 + b) % 256 < 256 := Nat.mod_lt _ (by norm_num)
  have h2 : (s2 + (s1 + b) % 256) % 256 < 256 := Nat.mod_lt _ (by norm_num)
  have e1 : (s1 + b) % 256 % 2 ^ 16 = (s1 + b) % 256 := Nat.mod_eq_of_lt (by omega)
  rw [e1]
  have e2 : (s2 + (s1 + b) % 256) % 256 % 2 ^ 16 = (s2 + (s1 + b) % 256) % 256 :=
    Nat.mod_eq_of_lt (by omega)
  rw [e2]

/-- The body of `fletcher32` is the specification step for 65535 as long as the sums are
reduced: the `uint32_t` additions do not wrap. -/
theorem fletcher32Body_eq (s1 s2 b : Nat) (h1 : s1 < 65535) (h2 : s2 < 65535)
    (hb : b < 256) :
    fletcher32Body s1 s2 b = fletcherStep 65535 (s1, s2) b := by
  simp only [fletcher32Body, fletcherStep]
  have e1 : (s1 + b) % 2 ^ 32 = s1 + b := Nat.mod_eq_of_lt (by omega)
  rw [e1]
  have h3 : (s1 + b) % 65535 < 65535 := Nat.mod_lt _ (by norm_num)
  have e2 : (s2 + (s1 + b) % 65535) % 2 ^ 32 = s2 + (s1 + b) % 65535 :=
    Nat.mod_eq_of_lt (by omega)
  rw [e2]

/-- Main loop lemma.  When the bound lies inside the buffer, a run with enough budget,
started at index `i` below the bound with reduced sums, ends normally: its sums are the
specification step folded over `data[i .. bound)` and it has read exactly the indices
`i, i + 1, ..., bound - 1`. -/
theorem fletcherLoop_done (body : Nat → Nat → Nat → Nat × Nat) (M : Nat) (hM : 0 < M)
    (hbody : ∀ s1 s2 b, s1 < M → s2 < M → b < 256 →
      body s1 s2 b = fletcherStep M (s1, s2) b)
    (data : List Byte) (bound : Nat) (hb : bound ≤ data.length) (hb32 : bound < 2 ^ 32) :
    ∀ (fuel i s1 s2 : Nat) (reads : List Nat),
      i ≤ bound → bound - i < fuel → s1 < M → s2 < M →
      fletcherLoop body data bound fuel i s1 s2 reads =
        .done
          (((data.take bound).drop i).foldl (fun acc b => fletcherStep M acc b.val) (s1, s2)).1
          (((data.take bound).drop i).foldl (fun acc b => fletcherStep M acc b.val) (s1, s2)).2
          (reads ++ List.range' i (bound - i)) := by
  intro fuel
  induction fuel with
  | zero => intro i s1 s2 reads _ hf; omega
  | succ n ih =>
    intro i s1 s2 reads hi hf h1 h2
    rw [fletcherLoop]
    by_cases hlt : i < bound
    · have hidx : i < data.length := by omega
      have hwrap : (i + 1) % 2 ^ 32 = i + 1 := Nat.mod_eq_of_lt (by omega)
      have hdrop : (data.take bound).drop i = data[i] :: (data.take bound).drop (i + 1) := by
        have hi2 : i < (data.take bound).length := by
          rw [List.length_take]; omega
        rw [List.drop_eq_getElem_cons hi2, List.getElem_take]
      have hr : List.range' i (bound - i) = i :: List.range' (i + 1) (bound - (i + 1)) := by
        have e : bound - i = (bound - (i + 1)) + 1 := by omega
        rw [e, List.range'_succ]
      have hstep := fletcherStep_lt M hM (s1, s2) (data[i]).val
      rw [if_pos hlt, List.getElem?_eq_getElem hidx]
      simp only
      rw [hwrap, hbody s1 s2 _ h1 h2 (data[i]).isLt,
        ih (i + 1) _ _ _ (by omega) (by omega) hstep.1 hstep.2, hdrop, hr]
      simp [List.foldl_cons, List.append_assoc]
    · have hib : i = bound := by omega
      subst hib
      have hnil : (data.take i).drop i = [] := by
        apply List.drop_eq_nil_of_le
        rw [List.length_take]
        omega
      rw [if_neg hlt, hnil]
      simp

/-- The loop bound is always a 32-bit value. -/
theorem loopBound_lt (length backOffset : Nat) : loopBound length backOffset < 2 ^ 32 := by
  unfold loopBound
  exact Nat.mod_lt _ (by norm_num)

/-- The iteration budget is never the reason a run ends: with a 32-bit bound and start
index, a run whose budget covers the remaining counter values does not use it up.  In
particular the runs of the three routines, started with budget `2 ^ 32`, never end in
`outOfFuel`. -/
theorem fletcherLoop_ne_outOfFuel (body : Nat → Nat → Nat → Nat × Nat) (data : List Byte)
    (bound : Nat) (hb : bound < 2 ^ 32) :
    ∀ (fuel i s1 s2 : Nat) (reads : List Nat), i < 2 ^ 32 → 2 ^ 32 ≤ fuel + i →
      fletcherLoop body data bound fuel i s1 s2 reads ≠ .outOfFuel := by
  intro fuel
  induction fuel with
  | zero => intro i s1 s2 reads hi hf; omega
  | succ n ih =>
    intro i s1 s2 reads hi hf
    rw [fletcherLoop]
    by_cases hlt : i < bound
    · rw [if_pos hlt]
      cases hd : data[i]? with
      | none => simp
      | some b =>
        have hwrap : (i + 1) % 2 ^ 32 = i + 1 := Nat.mod_eq_of_lt (by omega)
        simp only [hwrap]
        exact ih (i + 1) _ _ _ (by omega) (by omega)
    · rw [if_neg hlt]
      simp

/-- Folding the specification step keeps reduced sums reduced. -/
theorem foldl_fletcherStep_lt (M : Nat) (hM : 0 < M) (bytes : List Byte) :
    ∀ acc : Nat × Nat, acc.1 < M → acc.2 < M →
      (bytes.foldl (fun acc b => fletcherStep M acc b.val) acc).1 < M ∧
      (bytes.foldl (fun acc b => fletcherStep M acc b.val) acc).2 < M := by
  induction bytes with
  | nil => intro acc h1 h2; exact ⟨h1, h2⟩
  | cons b bs ih =>
    intro acc _ _
    rw [List.foldl_cons]
    exact ih _ (fletcherStep_lt M hM acc b.val).1 (fletcherStep_lt M hM acc b.val).2

/-- Both specification sums are below the (positive) modulus. -/
theorem fletcherSums_lt (M : Nat) (hM : 0 < M) (bytes : List Byte) :
    (fletcherSums M bytes).1 < M ∧ (fletcherSums M bytes).2 < M :=
  foldl_fletcherStep_lt M hM bytes (0, 0) hM hM

/-- Without wrap-around the loop bound is the plain difference. -/
theorem loopBound_eq (length backOffset : Nat) (h32 : length < 2 ^ 32)
    (hb : backOffset ≤ length) : loopBound length backOffset = length - backOffset := by
  unfold loopBound
  omega

/-- A run on a well-formed input ends normally with the specification sums of the
selected bytes, having read exactly the indices of the selected range. -/
theorem fletcherRun_done (body : Nat → Nat → Nat → Nat × Nat) (M : Nat) (hM : 0 < M)
    (hbody : ∀ s1 s2 b, s1 < M → s2 < M → b < 256 →
      body s1 s2 b = fletcherStep M (s1, s2) b)
    (data : List Byte) (length startOffset backOffset : Nat)
    (hlen : length ≤ data.length) (h32 : length < 2 ^ 32)
    (hsb : startOffset + backOffset ≤ length) :
    fletcherLoop body data (loopBound length backOffset) loopFuel startOffset 0 0 [] =
      .done (fletcherSums M (selected data length startOffset backOffset)).1
        (fletcherSums M (selected data length startOffset backOffset)).2
        (List.range' startOffset (length - backOffset - startOffset)) := by
  rw [loopBound_eq length backOffset h32 (by omega)]
  rw [fletcherLoop_done body M hM hbody data (length - backOffset) (by omega) (by omega)
    loopFuel startOffset 0 0 [] (by omega) (by unfold loopFuel; omega) hM hM]
  simp [fletcherSums, selected]

/-- Packing two sums below 256 into a `uint16_t` is `sum2 * 2 ^ 8 + sum1`: neither the
shift nor the conversion loses a bit. -/
theorem pack16_eq (s1 s2 : Nat) (h1 : s1 < 256) (h2 : s2 < 256) :
    ((s2 <<< 8) ||| s1) % 2 ^ 16 = s2 * 2 ^ 8 + s1 := by
  rw [Nat.shiftLeft_eq, or_eq_add_of_lt s2 s1 8 (by omega)]
  exact Nat.mod_eq_of_lt (by omega)

/-- Packing two sums below 65536 into a `uint32_t` is `sum2 * 2 ^ 16 + sum1`. -/
theorem pack32_eq (s1 s2 : Nat) (h1 : s1 < 65536) (h2 : s2 < 65536) :
    ((s2 <<< 16) % 2 ^ 32) ||| s1 = s2 * 2 ^ 16 + s1 := by
  rw [Nat.shiftLeft_eq, Nat.mod_eq_of_lt (by omega), or_eq_add_of_lt s2 s1 16 (by omega)]

/-- The run of `fletcher16` on a well-formed input. -/
theorem fletcher16Run_eq (data : List Byte) (length startOffset backOffset : Nat)
    (hlen : length ≤ data.length) (h32 : length < 2 ^ 32)
    (hsb : startOffset + backOffset ≤ length) :
    fletcher16Run data length startOffset backOffset =
      .done (fletcherSums 255 (selected data length startOffset backOffset)).1
        (fletcherSums 255 (selected data length startOffset backOffset)).2
        (List.range' startOffset (length - backOffset - startOffset)) :=
  fletcherRun_done fletcher16Body 255 (by norm_num)
    (fun s1 s2 b _ _ _ => fletcher16Body_eq s1 s2 b) data length startOffset backOffset
    hlen h32 hsb

/-- The run of `fletcher16_mod256` on a well-formed input. -/
theorem fletcher16_mod256Run_eq (data : List Byte) (length startOffset backOffset : Nat)
    (hlen : length ≤ data.length) (h32 : length < 2 ^ 32)
    (hsb : startOffset + backOffset ≤ length) :
    fletcher16_mod256Run data length startOffset backOffset =
      .done (fletcherSums 256 (selected data length startOffset backOffset)).1
        (fletcherSums 256 (selected data length startOffset backOffset)).2
        (List.range' startOffset (length - backOffset - startOffset)) :=
  fletcherRun_done fletcher16_mod256Body 256 (by norm_num)
    (fun s1 s2 b _ _ _ => fletcher16_mod256Body_eq s1 s2 b) data length startOffset
    backOffset hlen h32 hsb

/-- The run of `fletcher32` on a well-formed input. -/
theorem fletcher32Run_eq (data : List Byte) (length startOffset backOffset : Nat)
    (hlen : length ≤ data.length) (h32 : length < 2 ^ 32)
    (hsb : startOffset + backOffset ≤ length) :
    fletcher32Run data length startOffset backOffset =
      .done (fletcherSums 65535 (selected data length startOffset backOffset)).1
        (fletcherSums 65535 (selected data length startOffset backOffset)).2
        (List.range' startOffset (length - backOffset - startOffset)) :=
  fletcherRun_done fletcher32Body 65535 (by norm_num) fletcher32Body_eq data length
    startOffset backOffset hlen h32 hsb

/-- The value of `fletcher16` on a well-formed input. -/
theorem fletcher16_eq (data : List Byte) (length startOffset backOffset : Nat)
    (hlen : length ≤ data.length) (h32 : length < 2 ^ 32)
    (hsb : startOffset + backOffset ≤ length) :
    fletcher16 data length startOffset backOffset =
      some ((fletcherSums 255 (selected data length startOffset backOffset)).2 * 2 ^ 8
        + (fletcherSums 255 (selected data length startOffset backOffset)).1) := by
  have h := fletcherSums_lt 255 (by norm_num) (selected data length startOffset backOffset)
  simp only [fletcher16, fletcher16Run_eq data length startOffset backOffset hlen h32 hsb]
  rw [pack16_eq _ _ (by omega) (by omega)]

/-- The value of `fletcher16_mod256` on a well-formed input. -/
theorem fletcher16_mod256_eq (data : List Byte) (length startOffset backOffset : Nat)
    (hlen : length ≤ data.length) (h32 : length < 2 ^ 32)
    (hsb : startOffset + backOffset ≤ length) :
    fletcher16_mod256 data length startOffset backOffset =
      some ((fletcherSums 256 (selected data length startOffset backOffset)).2 * 2 ^ 8
        + (fletcherSums 256 (selected data length startOffset backOffset)).1) := by
  have h := fletcherSums_lt 256 (by norm_num) (selected data length startOffset backOffset)
  simp only [fletcher16_mod256,
    fletcher16_mod256Run_eq data length startOffset backOffset hlen h32 hsb]
  rw [pack16_eq _ _ h.1 h.2]

/-- The value of `fletcher32` on a well-formed input. -/
theorem fletcher32_eq (data : List Byte) (length startOffset backOffset : Nat)
    (hlen : length ≤ data.length) (h32 : length < 2 ^ 32)
    (hsb : startOffset + backOffset ≤ length) :
    fletcher32 data length startOffset backOffset =
      some ((fletcherSums 65535 (selected data length startOffset backOffset)).2 * 2 ^ 16
        + (fletcherSums 65535 (selected data length startOffset backOffset)).1) := by
  have h := fletcherSums_lt 65535 (by norm_num) (selected data length startOffset backOffset)
  simp only [fletcher32, fletcher32Run_eq data length startOffset backOffset hlen h32 hsb]
  rw [pack32_eq _ _ (by omega) (by omega)]

/-- Once the loop test fails, a run with budget left ends with the sums unchanged and
reads nothing. -/
theorem fletcherLoop_exit (body : Nat → Nat → Nat → Nat × Nat) (data : List Byte)
    (bound fuel i s1 s2 : Nat) (reads : List Nat) (hf : 0 < fuel) (hi : ¬ i < bound) :
    fletcherLoop body data bound fuel i s1 s2 reads = .done s1 s2 reads := by
  cases fuel with
  | zero => omega
  | succ n => rw [fletcherLoop, if_neg hi]

/-- Loop invariant: if every execution of the body yields sums below `M`, then a run
started with sums below `M` can only end normally with sums below `M`, whatever the
buffer, the bound, the start index and the budget. -/
theorem fletcherLoop_inv (body : Nat → Nat → Nat → Nat × Nat) (M : Nat)
    (hbody : ∀ s1 s2 b, (body s1 s2 b).1 < M ∧ (body s1 s2 b).2 < M)
    (data : List Byte) (bound : Nat) :
    ∀ (fuel i s1 s2 : Nat) (reads : List Nat) (r1 r2 : Nat) (rd : List Nat),
      s1 < M → s2 < M →
      fletcherLoop body data bound fuel i s1 s2 reads = .done r1 r2 rd →
      r1 < M ∧ r2 < M := by
  intro fuel
  induction fuel with
  | zero =>
    intro i s1 s2 reads r1 r2 rd _ _ h
    rw [fletcherLoop] at h
    cases h
  | succ n ih =>
    intro i s1 s2 reads r1 r2 rd h1 h2 h
    rw [fletcherLoop] at h
    by_cases hlt : i < bound
    · rw [if_pos hlt] at h
      cases hd : data[i]? with
      | none => rw [hd] at h; cases h
      | some b =>
        rw [hd] at h
        exact ih _ _ _ _ r1 r2 rd (hbody s1 s2 b.val).1 (hbody s1 s2 b.val).2 h
    · rw [if_neg hlt] at h
      cases h
      exact ⟨h1, h2⟩

/-- The unreduced sums, folded from any start, reduce to the specification sums. -/
theorem foldl_fletcherStep_eq_mod (M : Nat) (bytes : List Byte) :
    ∀ acc u : Nat × Nat, acc.1 = u.1 % M → acc.2 = u.2 % M →
      bytes.foldl (fun acc b => fletcherStep M acc b.val) acc =
        ((bytes.foldl (fun acc b => (acc.1 + b.val, acc.2 + (acc.1 + b.val))) u).1 % M,
         (bytes.foldl (fun acc b => (acc.1 + b.val, acc.2 + (acc.1 + b.val))) u).2 % M) := by
  induction bytes with
  | nil =>
    intro acc u h1 h2
    simp only [List.foldl_nil]
    exact Prod.ext h1 h2
  | cons b bs ih =>
    intro acc u h1 h2
    simp only [List.foldl_cons]
    apply ih
    · simp only [fletcherStep, h1, Nat.mod_add_mod]
    · simp only [fletcherStep, h1, h2, Nat.mod_add_mod, Nat.add_mod_mod]

/-- The specification sums are the unreduced cumulative sums, reduced once at the end. -/
theorem fletcherSums_eq_mod (M : Nat) (bytes : List Byte) :
    fletcherSums M bytes = ((unreducedSums bytes).1 % M, (unreducedSums bytes).2 % M) :=
  foldl_fletcherStep_eq_mod M bytes (0, 0) (0, 0) (Nat.zero_mod M).symm (Nat.zero_mod M).symm

/-- The sum of the bytes never exceeds the sum of the partial sums (general start). -/
theorem foldl_unreduced_le (bytes : List Byte) :
    ∀ u : Nat × Nat, u.1 ≤ u.2 →
      (bytes.foldl (fun acc b => (acc.1 + b.val, acc.2 + (acc.1 + b.val))) u).1 ≤
      (bytes.foldl (fun acc b => (acc.1 + b.val, acc.2 + (acc.1 + b.val))) u).2 := by
  induction bytes with
  | nil => intro u h; exact h
  | cons b bs ih =>
    intro u h
    simp only [List.foldl_cons]
    apply ih
    simp only
    omega

/-- The sum of the bytes never exceeds the sum of the partial sums. -/
theorem unreducedSums_le (bytes : List Byte) :
    (unreducedSums bytes).1 ≤ (unreducedSums bytes).2 :=
  foldl_unreduced_le bytes (0, 0) (Nat.le_refl 0)

/-- Reduction modulo 255 and modulo 256 agree exactly on the numbers whose remainder
modulo 65280 = 255 * 256 is below 255. -/
theorem mod255_eq_mod256_iff (S : Nat) : S % 255 = S % 256 ↔ S % 65280 < 255 := by
  omega

/-- Two buffers that agree on the selected index range select the same bytes. -/
theorem selected_congr (d1 d2 : List Byte) (length startOffset backOffset : Nat)
    (hagree : ∀ i, startOffset ≤ i → i < length - backOffset → d1[i]? = d2[i]?) :
    selected d1 length startOffset backOffset = selected d2 length startOffset backOffset := by
  unfold selected
  apply List.ext_getElem?
  intro j
  simp only [List.getElem?_drop, List.getElem?_take]
  by_cases hj : startOffset + j < length - backOffset
  · simp [hj, hagree (startOffset + j) (by omega) hj]
  · simp [hj]

/-- The two 16-bit routines on a well-formed input return the same value exactly when
both unreduced sums have a remainder modulo 65280 below 255. -/
theorem fletcher16_eq_mod256_iff (data : List Byte) (length startOffset backOffset : Nat)
    (hlen : length ≤ data.length) (h32 : length < 2 ^ 32)
    (hsb : startOffset + backOffset ≤ length) :
    fletcher16 data length startOffset backOffset =
        fletcher16_mod256 data length startOffset backOffset ↔
      (unreducedSums (selected data length startOffset backOffset)).1 % 65280 < 255 ∧
      (unreducedSums (selected data length startOffset backOffset)).2 % 65280 < 255 := by
  rw [fletcher16_eq data length startOffset backOffset hlen h32 hsb,
    fletcher16_mod256_eq data length startOffset backOffset hlen h32 hsb,
    fletcherSums_eq_mod, fletcherSums_eq_mod]
  simp only [Option.some.injEq]
  generalize (unreducedSums (selected data length startOffset backOffset)).1 = S1
  generalize (unreducedSums (selected data length startOffset backOffset)).2 = S2
  have e1 := mod255_eq_mod256_iff S1
  have e2 := mod255_eq_mod256_iff S2
  have a1 : S1 % 255 < 255 := Nat.mod_lt _ (by norm_num)
  have a2 : S2 % 255 < 255 := Nat.mod_lt _ (by norm_num)
  have c1 : S1 % 256 < 256 := Nat.mod_lt _ (by norm_num)
  have c2 : S2 % 256 < 256 := Nat.mod_lt _ (by norm_num)
  constructor
  · intro h
    have h1 : S1 % 255 = S1 % 256 := by omega
    have h2 : S2 % 255 = S2 % 256 := by omega
    exact ⟨e1.mp h1, e2.mp h2⟩
  · intro h
    rw [e1.mpr h.1, e2.mpr h.2]

/-! ## Fletcher: the claims -/

/-- Claim C1: for every buffer of `length` bytes (a 32-bit length) and offsets with
`startOffset + backOffset <= length`, each of `fletcher16` (M = 255, shift 8),
`fletcher16_mod256` (M = 256, shift 8) and `fletcher32` (M = 65535, shift 16) returns
`sum2 * 2^shift + sum1`, where `(sum1, sum2)` are the specification sums of the bytes
`data[startOffset .. length - backOffset)` in ascending order, computed in unbounded
arithmetic: none of the fixed-width operations of the code wraps or truncates. -/
theorem fletcher_computes_spec (data : List Byte) (length startOffset backOffset : Nat)
    (hlen : data.length = length) (h32 : length < 2 ^ 32)
    (hsb : startOffset + backOffset ≤ length) :
    fletcher16 data length startOffset backOffset =
      some ((fletcherSums 255 (selected data length startOffset backOffset)).2 * 2 ^ 8
        + (fletcherSums 255 (selected data length startOffset backOffset)).1) ∧
    fletcher16_mod256 data length startOffset backOffset =
      some ((fletcherSums 256 (selected data length startOffset backOffset)).2 * 2 ^ 8
        + (fletcherSums 256 (selected data length startOffset backOffset)).1) ∧
    fletcher32 data length startOffset backOffset =
      some ((fletcherSums 65535 (selected data length startOffset backOffset)).2 * 2 ^ 16
        + (fletcherSums 65535 (selected data length startOffset backOffset)).1) :=
  ⟨fletcher16_eq data length startOffset backOffset (by omega) h32 hsb,
   fletcher16_mod256_eq data length startOffset backOffset (by omega) h32 hsb,
   fletcher32_eq data length startOffset backOffset (by omega) h32 hsb⟩

/-- Witness of C1: the six-byte buffer `[65, 1, 17, 34, 34, 0]` with one leading and one
trailing byte excluded. -/
theorem fletcher_computes_spec_witness :
    fletcher16 [65, 1, 17, 34, 34, 0] 6 1 1 =
      some ((fletcherSums 255 (selected [65, 1, 17, 34, 34, 0] 6 1 1)).2 * 2 ^ 8
        + (fletcherSums 255 (selected [65, 1, 17, 34, 34, 0] 6 1 1)).1) ∧
    fletcher16_mod256 [65, 1, 17, 34, 34, 0] 6 1 1 =
      some ((fletcherSums 256 (selected [65, 1, 17, 34, 34, 0] 6 1 1)).2 * 2 ^ 8
        + (fletcherSums 256 (selected [65, 1, 17, 34, 34, 0] 6 1 1)).1) ∧
    fletcher32 [65, 1, 17, 34, 34, 0] 6 1 1 =
      some ((fletcherSums 65535 (selected [65, 1, 17, 34, 34, 0] 6 1 1)).2 * 2 ^ 16
        + (fletcherSums 65535 (selected [65, 1, 17, 34, 34, 0] 6 1 1)).1) :=
  fletcher_computes_spec [65, 1, 17, 34, 34, 0] 6 1 1 (by decide) (by decide) (by decide)

/-- Claim C4: on the buffer `[1, 2, 3, 4]` with length 4 and no offsets, the loop of
`fletcher16` ends with `sum1 = 10` and `sum2 = 20` (having read indices 0 to 3), and
`fletcher16` returns 0x140A. -/
theorem fletcher16_example :
    fletcher16Run [1, 2, 3, 4] 4 0 0 = .done 10 20 [0, 1, 2, 3] ∧
    fletcher16 [1, 2, 3, 4] 4 0 0 = some 0x140A := by
  decide

/-- Counterexample to C5 as stated: `fletcher32` on `[1, 2, 3, 4]` does not return
0x00140014. -/
theorem fletcher32_example_refuted :
    fletcher32 [1, 2, 3, 4] 4 0 0 ≠ some 0x00140014 := by
  decide

/-- Claim C5, amended: on the buffer `[1, 2, 3, 4]` with length 4 and no offsets, the loop
of `fletcher32` ends with `sum1 = 10` and `sum2 = 20`, and `fletcher32` returns
`(20 << 16) | 10 = 0x0014000A`. -/
theorem fletcher32_example :
    fletcher32Run [1, 2, 3, 4] 4 0 0 = .done 10 20 [0, 1, 2, 3] ∧
    fletcher32 [1, 2, 3, 4] 4 0 0 = some 0x0014000A ∧
    (20 <<< 16) ||| 10 = 0x0014000A := by
  decide

/-- Claim C6: for every buffer of `length` bytes and offsets with
`startOffset + backOffset <= length` such that the sum of all partial sums of the selected
bytes is below 255, `fletcher16` and `fletcher16_mod256` return the same value; on
`[1, 2, 3, 4]` without offsets both return 0x140A. -/
theorem fletcher16_agree_below_255 (data : List Byte) (length startOffset backOffset : Nat)
    (hlen : data.length = length) (h32 : length < 2 ^ 32)
    (hsb : startOffset + backOffset ≤ length)
    (hsmall : (unreducedSums (selected data length startOffset backOffset)).2 < 255) :
    fletcher16 data length startOffset backOffset =
      fletcher16_mod256 data length startOffset backOffset ∧
    fletcher16 [1, 2, 3, 4] 4 0 0 = some 0x140A ∧
    fletcher16_mod256 [1, 2, 3, 4] 4 0 0 = some 0x140A := by
  refine ⟨?_, by decide, by decide⟩
  rw [fletcher16_eq_mod256_iff data length startOffset backOffset (by omega) h32 hsb]
  have hle := unreducedSums_le (selected data length startOffset backOffset)
  omega

/-- Witness of C6 at the buffer `[1, 2, 3, 4]`, whose partial sums add up to 20. -/
theorem fletcher16_agree_below_255_witness :
    (unreducedSums (selected [1, 2, 3, 4] 4 0 0)).2 < 255 ∧
    fletcher16 [1, 2, 3, 4] 4 0 0 = fletcher16_mod256 [1, 2, 3, 4] 4 0 0 :=
  ⟨by decide,
   (fletcher16_agree_below_255 [1, 2, 3, 4] 4 0 0 (by decide) (by decide) (by decide)
     (by decide)).1⟩

set_option maxRecDepth 100000 in
/-- Counterexample to C7 as stated: the 258-byte buffer 254, 0, ..., 0 is a well-formed
input whose partial sums add up to 65532, at least 255, and yet `fletcher16` and
`fletcher16_mod256` both return 0xFCFE on it. -/
theorem fletcher16_collision :
    collidingBuffer.length = 258 ∧ 258 < 2 ^ 32 ∧ 0 + 0 ≤ 258 ∧
    255 ≤ (unreducedSums (selected collidingBuffer 258 0 0)).2 ∧
    fletcher16 collidingBuffer 258 0 0 = some 0xFCFE ∧
    fletcher16_mod256 collidingBuffer 258 0 0 = some 0xFCFE := by
  decide

/-- Claim C7, amended: for every buffer of `length` bytes and offsets with
`startOffset + backOffset <= length` whose partial sums add up to at least 255,
`fletcher16` and `fletcher16_mod256` return different values exactly when the sum of the
selected bytes or the sum of their partial sums has a remainder modulo 65280 of at
least 255; in particular they differ whenever the sum of the partial sums is at least 255
and below 65280. -/
theorem fletcher16_differ_iff (data : List Byte) (length startOffset backOffset : Nat)
    (hlen : data.length = length) (h32 : length < 2 ^ 32)
    (hsb : startOffset + backOffset ≤ length)
    (hbig : 255 ≤ (unreducedSums (selected data length startOffset backOffset)).2) :
    (fletcher16 data length startOffset backOffset ≠
        fletcher16_mod256 data length startOffset backOffset ↔
      255 ≤ (unreducedSums (selected data length startOffset backOffset)).1 % 65280 ∨
      255 ≤ (unreducedSums (selected data length startOffset backOffset)).2 % 65280) ∧
    ((unreducedSums (selected data length startOffset backOffset)).2 < 65280 →
      fletcher16 data length startOffset backOffset ≠
        fletcher16_mod256 data length startOffset backOffset) := by
  have hiff := fletcher16_eq_mod256_iff data length startOffset backOffset (by omega) h32 hsb
  constructor
  · rw [Ne, hiff]
    omega
  · intro hlt
    rw [Ne, hiff]
    omega

/-- Witness of the amended C7 at the one-byte buffer `[255]`: `fletcher16` returns 0 and
`fletcher16_mod256` returns 0xFFFF. -/
theorem fletcher16_differ_iff_witness :
    255 ≤ (unreducedSums (selected [255] 1 0 0)).2 ∧
    fletcher16 [255] 1 0 0 ≠ fletcher16_mod256 [255] 1 0 0 :=
  ⟨by decide,
   (fletcher16_differ_iff [255] 1 0 0 (by decide) (by decide) (by decide) (by decide)).2
     (by decide)⟩

/-- Claim C8: for every buffer, every 32-bit `length` and offsets with
`backOffset <= length` and `startOffset = length - backOffset` (an empty effective range),
`fletcher16`, `fletcher16_mod256` and `fletcher32` each return 0. -/
theorem fletcher_empty_range (data : List Byte) (length startOffset backOffset : Nat)
    (h32 : length < 2 ^ 32) (hb : backOffset ≤ length)
    (hs : startOffset = length - backOffset) :
    fletcher16 data length startOffset backOffset = some 0 ∧
    fletcher16_mod256 data length startOffset backOffset = some 0 ∧
    fletcher32 data length startOffset backOffset = some 0 := by
  have hf : 0 < loopFuel := by unfold loopFuel; norm_num
  have hi : ¬ startOffset < loopBound length backOffset := by
    rw [loopBound_eq length backOffset h32 hb]
    omega
  refine ⟨?_, ?_, ?_⟩
  · simp only [fletcher16, fletcher16Run, fletcherLoop_exit _ _ _ _ _ _ _ _ hf hi]
    decide
  · simp only [fletcher16_mod256, fletcher16_mod256Run,
      fletcherLoop_exit _ _ _ _ _ _ _ _ hf hi]
    decide
  · simp only [fletcher32, fletcher32Run, fletcherLoop_exit _ _ _ _ _ _ _ _ hf hi]
    decide

/-- Witness of C8: a four-byte buffer with `startOffset = 3` and `backOffset = 1`. -/
theorem fletcher_empty_range_witness :
    fletcher16 [1, 2, 3, 4] 4 3 1 = some 0 ∧
    fletcher16_mod256 [1, 2, 3, 4] 4 3 1 = some 0 ∧
    fletcher32 [1, 2, 3, 4] 4 3 1 = some 0 :=
  fletcher_empty_range [1, 2, 3, 4] 4 3 1 (by decide) (by decide) (by decide)

/-- Claim C9: for each of the three Fletcher routines and every 32-bit `length` and
offsets with `startOffset + backOffset <= length`, two buffers of `length` bytes that
agree at every index in `[startOffset, length - backOffset)` yield the same checksum: the
excluded leading and trailing bytes do not influence the result. -/
theorem fletcher_ignores_excluded (d1 d2 : List Byte) (length startOffset backOffset : Nat)
    (hlen1 : d1.length = length) (hlen2 : d2.length = length) (h32 : length < 2 ^ 32)
    (hsb : startOffset + backOffset ≤ length)
    (hagree : ∀ i, startOffset ≤ i → i < length - backOffset → d1[i]? = d2[i]?) :
    fletcher16 d1 length startOffset backOffset =
      fletcher16 d2 length startOffset backOffset ∧
    fletcher16_mod256 d1 length startOffset backOffset =
      fletcher16_mod256 d2 length startOffset backOffset ∧
    fletcher32 d1 length startOffset backOffset =
      fletcher32 d2 length startOffset backOffset := by
  have hsel := selected_congr d1 d2 length startOffset backOffset hagree
  rw [fletcher16_eq d1 length startOffset backOffset (by omega) h32 hsb,
    fletcher16_eq d2 length startOffset backOffset (by omega) h32 hsb,
    fletcher16_mod256_eq d1 length startOffset backOffset (by omega) h32 hsb,
    fletcher16_mod256_eq d2 length startOffset backOffset (by omega) h32 hsb,
    fletcher32_eq d1 length startOffset backOffset (by omega) h32 hsb,
    fletcher32_eq d2 length startOffset backOffset (by omega) h32 hsb, hsel]
  exact ⟨rfl, rfl, rfl⟩

/-- Witness of C9: a six-byte record whose trailing two-byte checksum field is first zero
and then filled in, checksummed with `backOffset = 2`. -/
theorem fletcher_ignores_excluded_witness :
    fletcher16 [65, 1, 17, 34, 0, 0] 6 0 2 = fletcher16 [65, 1, 17, 34, 0x75, 0x39] 6 0 2 ∧
    fletcher16_mod256 [65, 1, 17, 34, 0, 0] 6 0 2 =
      fletcher16_mod256 [65, 1, 17, 34, 0x75, 0x39] 6 0 2 ∧
    fletcher32 [65, 1, 17, 34, 0, 0] 6 0 2 = fletcher32 [65, 1, 17, 34, 0x75, 0x39] 6 0 2 :=
  fletcher_ignores_excluded [65, 1, 17, 34, 0, 0] [65, 1, 17, 34, 0x75, 0x39] 6 0 2
    (by decide) (by decide) (by decide) (by decide)
    (by
      intro i h0 h4
      have h : i < 4 := h4
      interval_cases i <;> rfl)

/-- Claim C10: in each Fletcher routine both sums are below the modulus M at loop entry
and after every iteration: every execution of the loop body, from any state, yields sums
below M, so every state in which a run from `sum1 = sum2 = 0` can leave the loop (for any
bound, hence after any number of iterations) has sums below M.  Consequently, for every
well-formed input the low and the high half of the result are below M: neither byte of a
`fletcher16` result is 0xFF and neither 16-bit half of a `fletcher32` result is 0xFFFF. -/
theorem fletcher_sums_reduced (data : List Byte) (length startOffset backOffset : Nat)
    (hlen : data.length = length) (h32 : length < 2 ^ 32)
    (hsb : startOffset + backOffset ≤ length) :
    (∀ s1 s2 b, (fletcher16Body s1 s2 b).1 < 255 ∧ (fletcher16Body s1 s2 b).2 < 255) ∧
    (∀ s1 s2 b,
      (fletcher16_mod256Body s1 s2 b).1 < 256 ∧ (fletcher16_mod256Body s1 s2 b).2 < 256) ∧
    (∀ s1 s2 b, (fletcher32Body s1 s2 b).1 < 65535 ∧ (fletcher32Body s1 s2 b).2 < 65535) ∧
    (∀ bound fuel i r1 r2 rd,
      fletcherLoop fletcher16Body data bound fuel i 0 0 [] = .done r1 r2 rd →
        r1 < 255 ∧ r2 < 255) ∧
    (∀ bound fuel i r1 r2 rd,
      fletcherLoop fletcher16_mod256Body data bound fuel i 0 0 [] = .done r1 r2 rd →
        r1 < 256 ∧ r2 < 256) ∧
    (∀ bound fuel i r1 r2 rd,
      fletcherLoop fletcher32Body data bound fuel i 0 0 [] = .done r1 r2 rd →
        r1 < 65535 ∧ r2 < 65535) ∧
    (∃ v, fletcher16 data length startOffset backOffset = some v ∧
      v % 2 ^ 8 < 255 ∧ v / 2 ^ 8 < 255 ∧ byteAt v 0 ≠ 0xFF ∧ byteAt v 1 ≠ 0xFF) ∧
    (∃ v, fletcher16_mod256 data length startOffset backOffset = some v ∧
      v % 2 ^ 8 < 256 ∧ v / 2 ^ 8 < 256) ∧
    (∃ v, fletcher32 data length startOffset backOffset = some v ∧
      v % 2 ^ 16 < 65535 ∧ v / 2 ^ 16 < 65535 ∧ v % 2 ^ 16 ≠ 0xFFFF ∧ v / 2 ^ 16 ≠ 0xFFFF) := by
  have b16 : ∀ s1 s2 b,
      (fletcher16Body s1 s2 b).1 < 255 ∧ (fletcher16Body s1 s2 b).2 < 255 := by
    intro s1 s2 b
    rw [fletcher16Body_eq]
    exact fletcherStep_lt 255 (by norm_num) _ _
  have b256 : ∀ s1 s2 b,
      (fletcher16_mod256Body s1 s2 b).1 < 256 ∧ (fletcher16_mod256Body s1 s2 b).2 < 256 := by
    intro s1 s2 b
    rw [fletcher16_mod256Body_eq]
    exact fletcherStep_lt 256 (by norm_num) _ _
  have b32 : ∀ s1 s2 b,
      (fletcher32Body s1 s2 b).1 < 65535 ∧ (fletcher32Body s1 s2 b).2 < 65535 := by
    intro s1 s2 b
    simp only [fletcher32Body]
    exact ⟨Nat.mod_lt _ (by norm_num), Nat.mod_lt _ (by norm_num)⟩
  refine ⟨b16, b256, b32, ?_, ?_, ?_, ?_, ?_, ?_⟩
  · intro bound fuel i r1 r2 rd h
    exact fletcherLoop_inv fletcher16Body 255 b16 data bound fuel i 0 0 [] r1 r2 rd
      (by norm_num) (by norm_num) h
  · intro bound fuel i r1 r2 rd h
    exact fletcherLoop_inv fletcher16_mod256Body 256 b256 data bound fuel i 0 0 [] r1 r2 rd
      (by norm_num) (by norm_num) h
  · intro bound fuel i r1 r2 rd h
    exact fletcherLoop_inv fletcher32Body 65535 b32 data bound fuel i 0 0 [] r1 r2 rd
      (by norm_num) (by norm_num) h
  · have h := fletcherSums_lt 255 (by norm_num) (selected data length startOffset backOffset)
    refine ⟨_, fletcher16_eq data length startOffset backOffset (by omega) h32 hsb, ?_⟩
    simp only [byteAt_eq]
    norm_num
    omega
  · have h := fletcherSums_lt 256 (by norm_num) (selected data length startOffset backOffset)
    refine ⟨_, fletcher16_mod256_eq data length startOffset backOffset (by omega) h32 hsb, ?_⟩
    omega
  · have h := fletcherSums_lt 65535 (by norm_num)
      (selected data length startOffset backOffset)
    refine ⟨_, fletcher32_eq data length startOffset backOffset (by omega) h32 hsb, ?_⟩
    omega

/-- Witness of C10: the two-byte buffer `[255, 255]`; for the last part, the `fletcher16`
result is 0 and has no 0xFF byte. -/
theorem fletcher_sums_reduced_witness :
    ∃ v, fletcher16 [255, 255] 2 0 0 = some v ∧
      v % 2 ^ 8 < 255 ∧ v / 2 ^ 8 < 255 ∧ byteAt v 0 ≠ 0xFF ∧ byteAt v 1 ≠ 0xFF :=
  (fletcher_sums_reduced [255, 255] 2 0 0 (by decide) (by decide) (by decide)).2.2.2.2.2.2.1

/-! ## Fletcher: index range of the reads, wrapped bounds -/

/-- A run whose bound lies beyond the end of the buffer reads up to the end of the buffer
and then reads out of range at the index `data.length`. -/
theorem fletcherLoop_overrun (body : Nat → Nat → Nat → Nat × Nat) (data : List Byte)
    (bound : Nat) (hb : data.length < bound) (hb32 : bound < 2 ^ 32) :
    ∀ (fuel i s1 s2 : Nat) (reads : List Nat),
      i ≤ data.length → data.length - i < fuel →
      fletcherLoop body data bound fuel i s1 s2 reads =
        .outOfRange data.length (reads ++ List.range' i (data.length - i)) := by
  intro fuel
  induction fuel with
  | zero => intro i s1 s2 reads _ hf; omega
  | succ n ih =>
    intro i s1 s2 reads hi hf
    rw [fletcherLoop, if_pos (by omega)]
    by_cases hlt : i < data.length
    · have hwrap : (i + 1) % 2 ^ 32 = i + 1 := Nat.mod_eq_of_lt (by omega)
      have hr : List.range' i (data.length - i) =
          i :: List.range' (i + 1) (data.length - (i + 1)) := by
        have e : data.length - i = (data.length - (i + 1)) + 1 := by omega
        rw [e, List.range'_succ]
      rw [List.getElem?_eq_getElem hlt]
      simp only
      rw [hwrap, ih (i + 1) _ _ _ (by omega) (by omega), hr]
      simp [List.append_assoc]
    · have hie : i = data.length := by omega
      rw [List.getElem?_eq_none (by omega)]
      simp [hie]

/-- A run started at or beyond the end of the buffer, below the bound, reads out of range
at once. -/
theorem fletcherLoop_overrun_start (body : Nat → Nat → Nat → Nat × Nat) (data : List Byte)
    (bound fuel i s1 s2 : Nat) (reads : List Nat) (hf : 0 < fuel) (hi : i < bound)
    (hlen : data.length ≤ i) :
    fletcherLoop body data bound fuel i s1 s2 reads = .outOfRange i reads := by
  cases fuel with
  | zero => omega
  | succ n =>
    rw [fletcherLoop, if_pos hi, List.getElem?_eq_none hlen]

/-- With `backOffset > length` the loop bound wraps to `2 ^ 32 + length - backOffset`. -/
theorem loopBound_wrap (length backOffset : Nat) (hb32 : backOffset < 2 ^ 32)
    (hb : length < backOffset) :
    loopBound length backOffset = 2 ^ 32 + length - backOffset := by
  unfold loopBound
  omega

/-- The run of any of the three routines when the loop bound has wrapped: it reads the
buffer from `startOffset` to its end (if `startOffset` lies inside) and then reads out of
range, at index `max startOffset length`. -/
theorem fletcherRun_overrun (body : Nat → Nat → Nat → Nat × Nat) (data : List Byte)
    (length startOffset backOffset : Nat) (hlen : data.length = length)
    (hb32 : backOffset < 2 ^ 32) (hb : length < backOffset)
    (hs : startOffset < loopBound length backOffset) :
    fletcherLoop body data (loopBound length backOffset) loopFuel startOffset 0 0 [] =
      .outOfRange (max startOffset length)
        (List.range' startOffset (length - startOffset)) := by
  have hbound := loopBound_wrap length backOffset hb32 hb
  have hlt := loopBound_lt length backOffset
  by_cases hsl : startOffset ≤ length
  · rw [fletcherLoop_overrun body data (loopBound length backOffset) (by omega) hlt loopFuel
      startOffset 0 0 [] (by omega) (by unfold loopFuel; omega)]
    rw [hlen, Nat.max_eq_right hsl]
    simp
  · rw [fletcherLoop_overrun_start body data (loopBound length backOffset) loopFuel
      startOffset 0 0 [] (by unfold loopFuel; norm_num) hs (by omega)]
    have e : length - startOffset = 0 := by omega
    rw [Nat.max_eq_left (by omega), e]
    simp

/-- The indices `startOffset, ..., length - backOffset - 1` all lie in the selected range
and inside a buffer of `length` bytes, and there are `length - startOffset - backOffset`
of them. -/
theorem range_selected_facts (length startOffset backOffset : Nat) :
    (∀ i ∈ List.range' startOffset (length - backOffset - startOffset),
      startOffset ≤ i ∧ i < length - backOffset ∧ length - backOffset ≤ length) ∧
    (List.range' startOffset (length - backOffset - startOffset)).length =
      length - startOffset - backOffset := by
  constructor
  · intro i hi
    rw [List.mem_range'_1] at hi
    omega
  · rw [List.length_range']
    omega

/-- Claim C11: for each of the three Fletcher routines, on a buffer of exactly `length`
bytes (a 32-bit length) with `startOffset + backOffset <= length`, the loop bound
`length - backOffset` does not wrap, the loop ends normally, every index `i` at which
`data[i]` was read satisfies `startOffset <= i < length - backOffset <= length`, and the
loop has run exactly `length - startOffset - backOffset` iterations. -/
theorem fletcher_reads_in_range (data : List Byte) (length startOffset backOffset : Nat)
    (hlen : data.length = length) (h32 : length < 2 ^ 32)
    (hsb : startOffset + backOffset ≤ length) :
    loopBound length backOffset = length - backOffset ∧
    (∃ sum1 sum2 reads,
      fletcher16Run data length startOffset backOffset = .done sum1 sum2 reads ∧
      (∀ i ∈ reads, startOffset ≤ i ∧ i < length - backOffset ∧
        length - backOffset ≤ length) ∧
      reads.length = length - startOffset - backOffset) ∧
    (∃ sum1 sum2 reads,
      fletcher16_mod256Run data length startOffset backOffset = .done sum1 sum2 reads ∧
      (∀ i ∈ reads, startOffset ≤ i ∧ i < length - backOffset ∧
        length - backOffset ≤ length) ∧
      reads.length = length - startOffset - backOffset) ∧
    (∃ sum1 sum2 reads,
      fletcher32Run data length startOffset backOffset = .done sum1 sum2 reads ∧
      (∀ i ∈ reads, startOffset ≤ i ∧ i < length - backOffset ∧
        length - backOffset ≤ length) ∧
      reads.length = length - startOffset - backOffset) := by
  have hr := range_selected_facts length startOffset backOffset
  exact ⟨loopBound_eq length backOffset h32 (by omega),
    ⟨_, _, _, fletcher16Run_eq data length startOffset backOffset (by omega) h32 hsb, hr⟩,
    ⟨_, _, _, fletcher16_mod256Run_eq data length startOffset backOffset (by omega) h32 hsb,
      hr⟩,
    ⟨_, _, _, fletcher32Run_eq data length startOffset backOffset (by omega) h32 hsb, hr⟩⟩

/-- Witness of C11: a six-byte buffer with one leading and two trailing bytes excluded;
the loop of `fletcher16` reads the indices 1, 2, 3. -/
theorem fletcher_reads_in_range_witness :
    ∃ sum1 sum2 reads,
      fletcher16Run [65, 1, 17, 34, 0, 0] 6 1 2 = .done sum1 sum2 reads ∧
      (∀ i ∈ reads, 1 ≤ i ∧ i < 6 - 2 ∧ 6 - 2 ≤ 6) ∧
      reads.length = 6 - 1 - 2 :=
  (fletcher_reads_in_range [65, 1, 17, 34, 0, 0] 6 1 2 (by decide) (by decide)
    (by decide)).2.1

/-- Claim C13: for each width W of 16, 32 and 64 bits, `byteswapW 0 = 0` and
`byteswapW (2^W - 1) = 2^W - 1`. -/
theorem byteswap_fixed_points :
    byteswap16 0 = 0 ∧ byteswap16 (2 ^ 16 - 1) = 2 ^ 16 - 1 ∧
    byteswap32 0 = 0 ∧ byteswap32 (2 ^ 32 - 1) = 2 ^ 32 - 1 ∧
    byteswap64 0 = 0 ∧ byteswap64 (2 ^ 64 - 1) = 2 ^ 64 - 1 := by
  decide

/-- Claim C14: for each of the three Fletcher routines, on a buffer of exactly `length`
bytes and 32-bit offsets with `backOffset > length`, the loop bound is evaluated as
`2^32 + length - backOffset`, which is at least `length`; whenever `startOffset` is below
that wrapped bound, the run ends by reading `data[i]` at an index `i >= length`, outside
the buffer, and the routine yields no value. -/
theorem fletcher_wrapped_bound_overruns (data : List Byte)
    (length startOffset backOffset : Nat) (hlen : data.length = length)
    (hb32 : backOffset < 2 ^ 32) (hb : length < backOffset)
    (hs : startOffset < loopBound length backOffset) :
    loopBound length backOffset = 2 ^ 32 + length - backOffset ∧
    length ≤ loopBound length backOffset ∧
    (∃ i reads, length ≤ i ∧
      fletcher16Run data length startOffset backOffset = .outOfRange i reads) ∧
    (∃ i reads, length ≤ i ∧
      fletcher16_mod256Run data length startOffset backOffset = .outOfRange i reads) ∧
    (∃ i reads, length ≤ i ∧
      fletcher32Run data length startOffset backOffset = .outOfRange i reads) ∧
    fletcher16 data length startOffset backOffset = none ∧
    fletcher16_mod256 data length startOffset backOffset = none ∧
    fletcher32 data length startOffset backOffset = none := by
  have hbound := loopBound_wrap length backOffset hb32 hb
  have h16 := fletcherRun_overrun fletcher16Body data length startOffset backOffset hlen
    hb32 hb hs
  have h256 := fletcherRun_overrun fletcher16_mod256Body data length startOffset backOffset
    hlen hb32 hb hs
  have h32 := fletcherRun_overrun fletcher32Body data length startOffset backOffset hlen
    hb32 hb hs
  refine ⟨hbound, by omega, ⟨_, _, Nat.le_max_right _ _, h16⟩,
    ⟨_, _, Nat.le_max_right _ _, h256⟩, ⟨_, _, Nat.le_max_right _ _, h32⟩, ?_, ?_, ?_⟩
  · simp only [fletcher16, fletcher16Run, h16]
  · simp only [fletcher16_mod256, fletcher16_mod256Run, h256]
  · simp only [fletcher32, fletcher32Run, h32]

/-- Witness of C14: a four-byte buffer with `backOffset = 5`; the bound wraps to
`2^32 - 1` and `fletcher16` reads `data[4]`, outside the buffer. -/
theorem fletcher_wrapped_bound_overruns_witness :
    loopBound 4 5 = 2 ^ 32 + 4 - 5 ∧
    fletcher16Run [1, 2, 3, 4] 4 0 5 = .outOfRange 4 [0, 1, 2, 3] ∧
    fletcher16 [1, 2, 3, 4] 4 0 5 = none :=
  ⟨(fletcher_wrapped_bound_overruns [1, 2, 3, 4] 4 0 5 (by decide) (by decide) (by decide)
      (by decide)).1,
    by decide,
    (fletcher_wrapped_bound_overruns [1, 2, 3, 4] 4 0 5 (by decide) (by decide) (by decide)
      (by decide)).2.2.2.2.2.1⟩

/-- Claim C17: for each of the three Fletcher routines, for every buffer and every 32-bit
`length` and offsets with `backOffset <= length` and `startOffset >= length - backOffset`
(also when `startOffset + backOffset > length`), the loop body never executes: the run
ends at once with both sums 0 and no byte read, and the routine returns 0. -/
theorem fletcher_no_iteration (data : List Byte) (length startOffset backOffset : Nat)
    (h32 : length < 2 ^ 32) (hb : backOffset ≤ length)
    (hs : length - backOffset ≤ startOffset) :
    fletcher16Run data length startOffset backOffset = .done 0 0 [] ∧
    fletcher16_mod256Run data length startOffset backOffset = .done 0 0 [] ∧
    fletcher32Run data length startOffset backOffset = .done 0 0 [] ∧
    fletcher16 data length startOffset backOffset = some 0 ∧
    fletcher16_mod256 data length startOffset backOffset = some 0 ∧
    fletcher32 data length startOffset backOffset = some 0 := by
  have hf : 0 < loopFuel := by unfold loopFuel; norm_num
  have hi : ¬ startOffset < loopBound length backOffset := by
    rw [loopBound_eq length backOffset h32 hb]
    omega
  have h16 : fletcher16Run data length startOffset backOffset = .done 0 0 [] :=
    fletcherLoop_exit _ _ _ _ _ _ _ _ hf hi
  have h256 : fletcher16_mod256Run data length startOffset backOffset = .done 0 0 [] :=
    fletcherLoop_exit _ _ _ _ _ _ _ _ hf hi
  have h32r : fletcher32Run data length startOffset backOffset = .done 0 0 [] :=
    fletcherLoop_exit _ _ _ _ _ _ _ _ hf hi
  refine ⟨h16, h256, h32r, ?_, ?_, ?_⟩
  · simp only [fletcher16, h16]
    decide
  · simp only [fletcher16_mod256, h256]
    decide
  · simp only [fletcher32, h32r]
    decide

/-- Witness of C17: a four-byte buffer with `startOffset = 4` and `backOffset = 2`, where
`startOffset + backOffset > length`. -/
theorem fletcher_no_iteration_witness :
    fletcher16Run [1, 2, 3, 4] 4 4 2 = .done 0 0 [] ∧
    fletcher16_mod256Run [1, 2, 3, 4] 4 4 2 = .done 0 0 [] ∧
    fletcher32Run [1, 2, 3, 4] 4 4 2 = .done 0 0 [] ∧
    fletcher16 [1, 2, 3, 4] 4 4 2 = some 0 ∧
    fletcher16_mod256 [1, 2, 3, 4] 4 4 2 = some 0 ∧
    fletcher32 [1, 2, 3, 4] 4 4 2 = some 0 :=
  fletcher_no_iteration [1, 2, 3, 4] 4 4 2 (by decide) (by decide) (by decide)

/-! ## Fletcher: closed form of the sums, the bytes 0x00 and 0xFF -/

/-- The unreduced cumulative sums from any start, in closed form. -/
theorem foldl_unreduced_eq (bytes : List Byte) :
    ∀ u : Nat × Nat,
      bytes.foldl (fun acc b => (acc.1 + b.val, acc.2 + (acc.1 + b.val))) u =
        (u.1 + byteSum bytes, u.2 + bytes.length * u.1 + weightedSum bytes) := by
  induction bytes with
  | nil => intro u; simp [byteSum, weightedSum]
  | cons b bs ih =>
    intro u
    rw [List.foldl_cons, ih]
    simp only [byteSum, weightedSum, List.map_cons, List.sum_cons, List.length_cons]
    apply Prod.ext
    · simp only; ring
    · simp only; ring

/-- The unreduced cumulative sums are the byte sum and the weighted sum. -/
theorem unreducedSums_eq (bytes : List Byte) :
    unreducedSums bytes = (byteSum bytes, weightedSum bytes) := by
  unfold unreducedSums
  rw [foldl_unreduced_eq]
  simp

/-- The specification sums in closed form. -/
theorem fletcherSums_closed (M : Nat) (bytes : List Byte) :
    fletcherSums M bytes = (byteSum bytes % M, weightedSum bytes % M) := by
  rw [fletcherSums_eq_mod, unreducedSums_eq]

/-- The number of selected bytes. -/
theorem selected_length (data : List Byte) (length startOffset backOffset : Nat)
    (hlen : length ≤ data.length) :
    (selected data length startOffset backOffset).length =
      length - startOffset - backOffset := by
  unfold selected
  rw [List.length_drop, List.length_take]
  omega

/-- The specification step sees a byte only through its remainder modulo `M`. -/
theorem fletcherStep_mod (M : Nat) (acc : Nat × Nat) (x : Nat) :
    fletcherStep M acc (x % M) = fletcherStep M acc x := by
  simp only [fletcherStep, Nat.add_mod_mod]

/-- The specification sums depend only on the remainders of the bytes modulo `M`. -/
theorem foldl_fletcherStep_map_mod (M : Nat) (bytes : List Byte) :
    ∀ acc : Nat × Nat,
      bytes.foldl (fun acc b => fletcherStep M acc b.val) acc =
        (bytes.map fun b => b.val % M).foldl (fun acc x => fletcherStep M acc x) acc := by
  induction bytes with
  | nil => intro acc; rfl
  | cons b bs ih =>
    intro acc
    rw [List.map_cons, List.foldl_cons, List.foldl_cons, fletcherStep_mod, ih]

/-- Two buffers whose selected bytes are pairwise equal or a 0x00 / 0xFF pair have the
same selected remainders modulo 255. -/
theorem selected_map_mod255 (d1 d2 : List Byte) (length startOffset backOffset : Nat)
    (h : ∀ i, startOffset ≤ i → i < length - backOffset →
      d1[i]? = d2[i]? ∨ (d1[i]? = some 0 ∧ d2[i]? = some 255) ∨
        (d1[i]? = some 255 ∧ d2[i]? = some 0)) :
    (selected d1 length startOffset backOffset).map (fun b => b.val % 255) =
      (selected d2 length startOffset backOffset).map (fun b => b.val % 255) := by
  unfold selected
  apply List.ext_getElem?
  intro j
  simp only [List.getElem?_map, List.getElem?_drop, List.getElem?_take]
  by_cases hj : startOffset + j < length - backOffset
  · simp only [hj, if_true]
    rcases h (startOffset + j) (by omega) hj with e | ⟨e1, e2⟩ | ⟨e1, e2⟩
    · rw [e]
    · rw [e1, e2]; rfl
    · rw [e1, e2]; rfl
  · simp [hj]

/-- Changing one element of a byte sequence shifts the byte sum accordingly. -/
theorem byteSum_change_one (l1 : List Byte) :
    ∀ (l2 : List Byte) (k : Nat) (x y : Byte),
      l1[k]? = some x → l2[k]? = some y → (∀ i, i ≠ k → l1[i]? = l2[i]?) →
      byteSum l1 + y.val = byteSum l2 + x.val := by
  induction l1 with
  | nil => intro l2 k x y h1; simp at h1
  | cons a as ih =>
    intro l2 k x y h1 h2 hrest
    cases l2 with
    | nil => simp at h2
    | cons c cs =>
      cases k with
      | zero =>
        simp only [List.getElem?_cons_zero, Option.some.injEq] at h1 h2
        have htail : as = cs := by
          apply List.ext_getElem?
          intro i
          have := hrest (i + 1) (by omega)
          simpa using this
        subst h1 h2 htail
        simp only [byteSum, List.map_cons, List.sum_cons]
        omega
      | succ k =>
        simp only [List.getElem?_cons_succ] at h1 h2
        have hhead : a = c := by
          have := hrest 0 (by omega)
          simpa using this
        have hih := ih cs k x y h1 h2 (by
          intro i hi
          have := hrest (i + 1) (by omega)
          simpa using this)
        subst hhead
        simp only [byteSum, List.map_cons, List.sum_cons] at hih ⊢
        omega

/-- Entries of the selected bytes are entries of the buffer. -/
theorem selected_getElem? (data : List Byte) (length startOffset backOffset k : Nat) :
    (selected data length startOffset backOffset)[k]? =
      if startOffset + k < length - backOffset then data[startOffset + k]? else none := by
  unfold selected
  simp only [List.getElem?_drop, List.getElem?_take]

/-- One selected position holds 0x00 in the first buffer and 0xFF in the second, all
other selected positions agree: then `fletcher16_mod256` tells the buffers apart. -/
theorem fletcher16_mod256_zero_ff (d1 d2 : List Byte) (length startOffset backOffset : Nat)
    (hlen1 : length ≤ d1.length) (hlen2 : length ≤ d2.length) (h32 : length < 2 ^ 32)
    (hsb : startOffset + backOffset ≤ length) (j : Nat) (hj1 : startOffset ≤ j)
    (hj2 : j < length - backOffset) (h0 : d1[j]? = some 0) (hff : d2[j]? = some 255)
    (hrest : ∀ i, startOffset ≤ i → i < length - backOffset → i ≠ j → d1[i]? = d2[i]?) :
    fletcher16_mod256 d1 length startOffset backOffset ≠
      fletcher16_mod256 d2 length startOffset backOffset := by
  have hk : startOffset + (j - startOffset) = j := by omega
  have hsum := byteSum_change_one (selected d1 length startOffset backOffset)
    (selected d2 length startOffset backOffset) (j - startOffset) 0 255
    (by rw [selected_getElem?, hk, if_pos hj2, h0])
    (by rw [selected_getElem?, hk, if_pos hj2, hff])
    (by
      intro i hi
      rw [selected_getElem?, selected_getElem?]
      by_cases hlt : startOffset + i < length - backOffset
      · rw [if_pos hlt, if_pos hlt]
        exact hrest (startOffset + i) (by omega) hlt (by omega)
      · rw [if_neg hlt, if_neg hlt])
  rw [fletcher16_mod256_eq d1 length startOffset backOffset hlen1 h32 hsb,
    fletcher16_mod256_eq d2 length startOffset backOffset hlen2 h32 hsb,
    fletcherSums_closed, fletcherSums_closed]
  simp only [ne_eq, Option.some.injEq]
  have e0 : ((0 : Byte) : Nat) = 0 := rfl
  have eff : ((255 : Byte) : Nat) = 255 := rfl
  rw [e0, eff] at hsum
  generalize byteSum (selected d1 length startOffset backOffset) = S1 at *
  generalize byteSum (selected d2 length startOffset backOffset) = S2 at *
  generalize weightedSum (selected d1 length startOffset backOffset) = W1
  generalize weightedSum (selected d2 length startOffset backOffset) = W2
  omega

/-- Claim C15: for each Fletcher routine with modulus M and every well-formed input,
writing `b_0 .. b_(n-1)` for the `n = length - startOffset - backOffset` selected bytes,
the low half of the result is `(b_0 + ... + b_(n-1)) mod M` and the high half is
`(n*b_0 + (n-1)*b_1 + ... + 1*b_(n-1)) mod M`. -/
theorem fletcher_closed_form (data : List Byte) (length startOffset backOffset : Nat)
    (hlen : data.length = length) (h32 : length < 2 ^ 32)
    (hsb : startOffset + backOffset ≤ length) :
    (selected data length startOffset backOffset).length =
      length - startOffset - backOffset ∧
    (∃ v, fletcher16 data length startOffset backOffset = some v ∧
      v % 2 ^ 8 = byteSum (selected data length startOffset backOffset) % 255 ∧
      v / 2 ^ 8 = weightedSum (selected data length startOffset backOffset) % 255) ∧
    (∃ v, fletcher16_mod256 data length startOffset backOffset = some v ∧
      v % 2 ^ 8 = byteSum (selected data length startOffset backOffset) % 256 ∧
      v / 2 ^ 8 = weightedSum (selected data length startOffset backOffset) % 256) ∧
    (∃ v, fletcher32 data length startOffset backOffset = some v ∧
      v % 2 ^ 16 = byteSum (selected data length startOffset backOffset) % 65535 ∧
      v / 2 ^ 16 = weightedSum (selected data length startOffset backOffset) % 65535) := by
  refine ⟨selected_length data length startOffset backOffset (by omega), ?_, ?_, ?_⟩
  · refine ⟨_, fletcher16_eq data length startOffset backOffset (by omega) h32 hsb, ?_⟩
    rw [fletcherSums_closed]
    simp only
    omega
  · refine ⟨_, fletcher16_mod256_eq data length startOffset backOffset (by omega) h32 hsb,
      ?_⟩
    rw [fletcherSums_closed]
    simp only
    omega
  · refine ⟨_, fletcher32_eq data length startOffset backOffset (by omega) h32 hsb, ?_⟩
    rw [fletcherSums_closed]
    simp only
    omega

/-- Witness of C15 at the buffer `[1, 2, 3, 4]` without offsets, for `fletcher16`. -/
theorem fletcher_closed_form_witness :
    ∃ v, fletcher16 [1, 2, 3, 4] 4 0 0 = some v ∧
      v % 2 ^ 8 = byteSum (selected [1, 2, 3, 4] 4 0 0) % 255 ∧
      v / 2 ^ 8 = weightedSum (selected [1, 2, 3, 4] 4 0 0) % 255 :=
  (fletcher_closed_form [1, 2, 3, 4] 4 0 0 (by decide) (by decide) (by decide)).2.1

/-- Claim C16: on well-formed inputs, `fletcher16` (modulus 255) returns the same
checksum for two buffers of `length` bytes that are equal except at positions where one
holds 0x00 and the other 0xFF; `fletcher16_mod256` returns different checksums for two
buffers of `length` bytes that differ at exactly one selected position, holding 0x00 in
one buffer and 0xFF in the other. -/
theorem fletcher16_blind_to_zero_ff (d1 d2 : List Byte)
    (length startOffset backOffset : Nat)
    (hlen1 : d1.length = length) (hlen2 : d2.length = length) (h32 : length < 2 ^ 32)
    (hsb : startOffset + backOffset ≤ length) :
    ((∀ i, i < length →
        d1[i]? = d2[i]? ∨ (d1[i]? = some 0 ∧ d2[i]? = some 255) ∨
          (d1[i]? = some 255 ∧ d2[i]? = some 0)) →
      fletcher16 d1 length startOffset backOffset =
        fletcher16 d2 length startOffset backOffset) ∧
    (∀ j, startOffset ≤ j → j < length - backOffset →
      ((d1[j]? = some 0 ∧ d2[j]? = some 255) ∨ (d1[j]? = some 255 ∧ d2[j]? = some 0)) →
      (∀ i, startOffset ≤ i → i < length - backOffset → i ≠ j → d1[i]? = d2[i]?) →
      fletcher16_mod256 d1 length startOffset backOffset ≠
        fletcher16_mod256 d2 length startOffset backOffset) := by
  constructor
  · intro h
    have hmap := selected_map_mod255 d1 d2 length startOffset backOffset
      (fun i _ hi => h i (by omega))
    rw [fletcher16_eq d1 length startOffset backOffset (by omega) h32 hsb,
      fletcher16_eq d2 length startOffset backOffset (by omega) h32 hsb]
    simp only [fletcherSums]
    rw [foldl_fletcherStep_map_mod, foldl_fletcherStep_map_mod, hmap]
  · intro j hj1 hj2 hpair hrest
    rcases hpair with ⟨h0, hff⟩ | ⟨hff, h0⟩
    · exact fletcher16_mod256_zero_ff d1 d2 length startOffset backOffset (by omega)
        (by omega) h32 hsb j hj1 hj2 h0 hff hrest
    · exact (fletcher16_mod256_zero_ff d2 d1 length startOffset backOffset (by omega)
        (by omega) h32 hsb j hj1 hj2 h0 hff
        (fun i h1 h2 h3 => (hrest i h1 h2 h3).symm)).symm

/-- Witness of C16: the buffers `[1, 0, 3]` and `[1, 255, 3]`. -/
theorem fletcher16_blind_to_zero_ff_witness :
    fletcher16 [1, 0, 3] 3 0 0 = fletcher16 [1, 255, 3] 3 0 0 ∧
    fletcher16_mod256 [1, 0, 3] 3 0 0 ≠ fletcher16_mod256 [1, 255, 3] 3 0 0 :=
  ⟨(fletcher16_blind_to_zero_ff [1, 0, 3] [1, 255, 3] 3 0 0 (by decide) (by decide)
      (by decide) (by decide)).1
      (by
        intro i hi
        interval_cases i
        · exact Or.inl rfl
        · exact Or.inr (Or.inl ⟨rfl, rfl⟩)
        · exact Or.inl rfl),
    (fletcher16_blind_to_zero_ff [1, 0, 3] [1, 255, 3] 3 0 0 (by decide) (by decide)
      (by decide) (by decide)).2 1 (by decide) (by decide) (Or.inl ⟨rfl, rfl⟩)
      (by
        intro i _ hi hne
        have h3 : i < 3 := hi
        interval_cases i
        · rfl
        · exact absurd rfl hne
        · rfl)⟩

/-! ## Hex dump: the text written -/

end Essentials.Utilities
